import Mathlib

/-!
Shallow embedding of pycloudflare (src/pycloudflare/models.py): the client
object model over the remote DNS provider — User (the spec's Account), Zone,
ZoneSettings and Record — together with proofs of the spec's claims.

Modelling conventions:
* JSON-like scalar values are `Val`; Python dicts are association lists
  (`alookup`/`amem`/`ainsert` model `d[k]`, `k in d`, `d[k] = v`;
  `dictUpdate` models `dict.update`).  Keys are unique in every dict the
  program builds, and the association-list operations agree with Python
  dicts on such inputs.
* The external HTTP service (`CloudFlareService` plus the page iterators,
  out of scope per the spec) is an opaque environment `Service` giving the
  flattened page contents and the responses of the mutating endpoints.
  Every operation returns the list of network calls it issued (`NetCall`),
  so "no network request" is `log = []`.
* Python exceptions are the `Except`/`SetResult` error outcomes:
  `Err.attributeError` models `AttributeError` (the spec's
  AttributeNotFoundError) and `Err.valueError` models
  `ValueError('Not an editeable setting')` (the spec's NotEditableError).
  An error outcome carries no successor state: the caller's object is
  unchanged, exactly as a raised Python exception leaves the object.
* `cached_property` slots are `Option` fields (`none` = cache cleared /
  never built); `clear_property_cache(obj, p)` sets the slot to `none`.
* Mutating methods are state-passing: a method of `Record` that touches the
  owning `Zone`'s cache takes the zone and returns the updated zone, which
  models the back-reference `self.zone`.
-/

deriving instance DecidableEq for Except

namespace PyCloudflare

/-- Scalar values carried in API blobs (strings, ints, booleans). -/
inductive Val where
  | str (s : String)
  | nat (n : Nat)
  | bool (b : Bool)
deriving DecidableEq

/-- Python dict lookup `d.get(k)` on an association list: first match wins. -/
def alookup {κ α : Type} [DecidableEq κ] : List (κ × α) → κ → Option α
  | [], _ => none
  | p :: rest, k => if p.1 = k then some p.2 else alookup rest k

/-- Python membership test `k in d`. -/
def amem {κ α : Type} [DecidableEq κ] (d : List (κ × α)) (k : κ) : Bool :=
  (alookup d k).isSome

/-- Python assignment `d[k] = v`: overwrite in place if present, else append
(Python dicts keep insertion order). -/
def ainsert {κ α : Type} [DecidableEq κ] (d : List (κ × α)) (k : κ) (v : α) :
    List (κ × α) :=
  if amem d k then d.map (fun p => if p.1 = k then (k, v) else p)
  else d ++ [(k, v)]

/-- Python `d.update(other)`: overwrite `d` by each key of `other` in turn. -/
def dictUpdate {κ α : Type} [DecidableEq κ] (d other : List (κ × α)) :
    List (κ × α) :=
  other.foldl (fun acc p => ainsert acc p.1 p.2) d

/-- A Python dict with string keys and scalar values (an API blob). -/
abbrev Dict := List (String × Val)

/-- The exceptions the model raises.  `attributeError` is Python's
`AttributeError` (the spec's AttributeNotFoundError); `valueError` is the
`ValueError('Not an editeable setting')` of `ZoneSettings.__setattr__`
(the spec's NotEditableError). -/
inductive Err where
  | attributeError
  | valueError
deriving DecidableEq

/-- Outcome of a `__setattr__` call.  `internal` is the first branch of both
setattr methods: the name is one of the reserved instance-attribute names
`('zone', 'service', '_data'/'_settings', '_updates')`, so the write bypasses
the edit-staging logic entirely and assigns the plain object attribute via
`super().__setattr__`. -/
inductive SetResult (α : Type) where
  | internal : SetResult α
  | ok : α → SetResult α
  | err : Err → SetResult α
deriving DecidableEq

/-- One network round trip issued through the service object. -/
inductive NetCall where
  | getZones
  | deleteZone (zoneId : Val)
  | getZoneSettings (zoneId : Val)
  | setZoneSettings (zoneId : Val) (items : List Dict)
  | getDnsRecords (zoneId : Val)
  | createDnsRecord (zoneId : Val) (fields : Dict)
  | updateDnsRecord (zoneId : Val) (recordId : Val) (fields : Dict)
  | deleteDnsRecord (zoneId : Val) (recordId : Val)
deriving DecidableEq

/-- One zone-setting descriptor as fetched from the provider: the fields of
the blob that `ZoneSettings` reads (`setting['id']`, `['value']`,
`['editable']`). -/
structure SettingBlob where
  id : String
  value : Val
  editable : Bool
deriving DecidableEq

/-- The opaque external service environment: what each GET endpoint's
paginated listing flattens to and what each mutating endpoint answers.
Pagination is out of scope (spec section 1), so a listing is just the drained
sequence of items. -/
structure Service where
  zonesList : List Dict
  settingsList : Val → List SettingBlob
  dnsRecords : Val → List Dict
  createResponse : Val → Dict → Dict
  updateResponse : Val → Val → Dict → Dict

/-! ### Record (`class Record`) -/

/-- `Record`: last-fetched snapshot `_data` plus the uncommitted field edits
`_updates`. -/
structure Record where
  data : Dict
  updates : Dict
deriving DecidableEq

/-- `Record.__init__(zone, data)`: wraps a blob with an empty edit map. -/
def mkRecord (blob : Dict) : Record :=
  { data := blob, updates := [] }

/-- `Record.__getattr__`: pending edit first, then the snapshot, else
`AttributeError`. -/
def Record.getattr (r : Record) (name : String) : Except Err Val :=
  match alookup r.updates name with
  | some v => Except.ok v
  | none =>
    match alookup r.data name with
    | some v => Except.ok v
    | none => Except.error Err.attributeError

/-- The reserved names of `Record.__setattr__`'s first branch. -/
def recordInternalAttrs : List String :=
  ["zone", "service", "_data", "_updates"]

/-- `Record.__setattr__`: reserved names go to `super().__setattr__`; a name
present in the snapshot is staged in `_updates`; anything else raises
`AttributeError`.  The staging branch is pure (no `Service` argument), so no
network call can occur, and an error outcome leaves the record unchanged. -/
def Record.setattr (r : Record) (name : String) (v : Val) : SetResult Record :=
  if name ∈ recordInternalAttrs then SetResult.internal
  else if amem r.data name then
    SetResult.ok { r with updates := ainsert r.updates name v }
  else SetResult.err Err.attributeError

/-! ### ZoneSettings (`class ZoneSettings`) -/

/-- `ZoneSettings`: the fetched snapshot `_settings` (setting-id to
descriptor, as built by `_get_settings`) plus the uncommitted edits
`_updates`. -/
structure ZoneSettings where
  settings : List (String × SettingBlob)
  updates : Dict
deriving DecidableEq

/-- `ZoneSettings._get_settings`: drain the paginated settings listing into
a dict keyed by `setting['id']` (later pages overwrite earlier duplicates,
as in a Python dict). -/
def getSettingsDict (blobs : List SettingBlob) : List (String × SettingBlob) :=
  blobs.foldl (fun acc b => ainsert acc b.id b) []

/-- `ZoneSettings.__init__`: fetch the full settings snapshot (one paginated
listing) and start with no pending edits. -/
def ZoneSettings.init (svc : Service) (zoneId : Val) :
    ZoneSettings × List NetCall :=
  ({ settings := getSettingsDict (svc.settingsList zoneId), updates := [] },
   [NetCall.getZoneSettings zoneId])

/-- `ZoneSettings.__getattr__`: pending edit first, then the descriptor's
`value` field, else `AttributeError`. -/
def ZoneSettings.getattr (s : ZoneSettings) (name : String) : Except Err Val :=
  match alookup s.updates name with
  | some v => Except.ok v
  | none =>
    match alookup s.settings name with
    | some blob => Except.ok blob.value
    | none => Except.error Err.attributeError

/-- The reserved names of `ZoneSettings.__setattr__`'s first branch. -/
def zoneSettingsInternalAttrs : List String :=
  ["zone", "service", "_settings", "_updates"]

/-- `ZoneSettings.__setattr__`: reserved names go to `super().__setattr__`;
an unknown setting-id raises `AttributeError`; a non-editable descriptor
raises `ValueError` (NotEditableError); otherwise the value is staged in
`_updates`.  Pure: no network call, and an error leaves the object
unchanged. -/
def ZoneSettings.setattr (s : ZoneSettings) (name : String) (v : Val) :
    SetResult ZoneSettings :=
  if name ∈ zoneSettingsInternalAttrs then SetResult.internal
  else
    match alookup s.settings name with
    | none => SetResult.err Err.attributeError
    | some blob =>
      if blob.editable then
        SetResult.ok { s with updates := ainsert s.updates name v }
      else SetResult.err Err.valueError

/-- `ZoneSettings.save`: no-op when there are no pending edits; otherwise
submit all edits as `{id, value}` pairs, re-fetch the full snapshot, and
clear the edits. -/
def ZoneSettings.save (svc : Service) (zoneId : Val) (s : ZoneSettings) :
    ZoneSettings × List NetCall :=
  match s.updates with
  | [] => (s, [])
  | _ :: _ =>
    let items := s.updates.map (fun p => [("id", Val.str p.1), ("value", p.2)])
    ({ settings := getSettingsDict (svc.settingsList zoneId), updates := [] },
     [NetCall.setZoneSettings zoneId items, NetCall.getZoneSettings zoneId])

/-! ### Ordering used by `Zone.records` (`value.sort(key=lambda r: (r.type, r.content))`) -/

/-- Python string comparison: lexicographic by code point. -/
def strLE : List Char → List Char → Bool
  | [], _ => true
  | _ :: _, [] => false
  | a :: as, b :: bs => if a = b then strLE as bs else decide (a < b)

/-- Rank used to compare values of different kinds.  Python 3 raises
`TypeError` there; no claim touches heterogeneous keys (the theorems only
ever compare string-valued keys), so the model just orders the kinds. -/
def Val.kindRank : Val → Nat
  | .str _ => 0
  | .nat _ => 1
  | .bool _ => 2

/-- Python `<=` on two scalar values of the same kind. -/
def Val.le : Val → Val → Bool
  | .str a, .str b => strLE a.data b.data
  | .nat a, .nat b => decide (a ≤ b)
  | .bool a, .bool b => decide (a ≤ b)
  | a, b => decide (a.kindRank ≤ b.kindRank)

/-- Python tuple comparison on the sort keys `(r.type, r.content)`:
lexicographic on the pair. -/
def pairLE (p q : Val × Val) : Bool :=
  if p.1 = q.1 then Val.le p.2 q.2 else Val.le p.1 q.1

/-- The sort key of `value.sort(key=lambda r: (r.type, r.content))`; the
attribute reads go through `Record.__getattr__`. -/
def Record.sortKeyOf (r : Record) : Except Err (Val × Val) := do
  let t ← Record.getattr r "type"
  let c ← Record.getattr r "content"
  pure (t, c)

/-- The comparison on key-decorated records used by the sort. -/
def keyLE (a b : (Val × Val) × Record) : Prop :=
  pairLE a.1 b.1 = true

instance : DecidableRel keyLE := fun _ _ => instDecidableEqBool _ _

/-- Decorate each record with its sort key, raising the first failure, as
Python's `list.sort(key=...)` computes every key up front. -/
def decorate : List Record → Except Err (List ((Val × Val) × Record))
  | [] => pure []
  | r :: rest => do
    let k ← Record.sortKeyOf r
    let ks ← decorate rest
    pure ((k, r) :: ks)

/-- `value.sort(key=lambda r: (r.type, r.content))`: decorate each record
with its key (raising if `type`/`content` is missing), then stable-sort by
the key.  Python's sort is stable, and a stable sort by a total preorder is
unique, so insertion sort returns exactly Python's result. -/
def sortRecords (l : List Record) : Except Err (List Record) := do
  let keyed ← decorate l
  pure ((List.insertionSort keyLE keyed).map Prod.snd)

/-! ### Zone (`class Zone`) -/

/-- `Zone`: the snapshot `_data` plus the two `cached_property` slots
(`records` and `settings`). -/
structure Zone where
  data : Dict
  recordsCache : Option (List (Val × List Record))
  settingsCache : Option ZoneSettings
deriving DecidableEq

/-- `Zone.__getattr__`: snapshot lookup, else `AttributeError`. -/
def Zone.getattr (z : Zone) (name : String) : Except Err Val :=
  match alookup z.data name with
  | some v => Except.ok v
  | none => Except.error Err.attributeError

/-- `Zone.__init__(user, data)`: wraps a blob with empty cache slots. -/
def mkZone (blob : Dict) : Zone :=
  { data := blob, recordsCache := none, settingsCache := none }

/-- `Zone.iter_records`: drain the paginated DNS-record listing for this
zone's id, wrapping each blob in a fresh `Record`. -/
def Zone.iter_records (svc : Service) (z : Zone) :
    Except Err (List Record × List NetCall) := do
  let zoneId ← Zone.getattr z "id"
  pure ((svc.dnsRecords zoneId).map mkRecord, [NetCall.getDnsRecords zoneId])

/-- `by_name.setdefault(record.name, []).append(record)`. -/
def groupInsert (m : List (Val × List Record)) (k : Val) (r : Record) :
    List (Val × List Record) :=
  match m with
  | [] => [(k, [r])]
  | p :: rest =>
    if p.1 = k then (p.1, p.2 ++ [r]) :: rest else p :: groupInsert rest k r

/-- The grouping loop of `Zone.records`: append each record to the list at
its own name (`record.name` goes through `Record.__getattr__`). -/
def groupByName : List Record → List (Val × List Record) →
    Except Err (List (Val × List Record))
  | [], m => pure m
  | r :: rest, m => do
    let n ← Record.getattr r "name"
    groupByName rest (groupInsert m n r)

/-- The sorting loop of `Zone.records`: sort every value list in place. -/
def sortEach : List (Val × List Record) →
    Except Err (List (Val × List Record))
  | [] => pure []
  | p :: rest => do
    let l ← sortRecords p.2
    let rest' ← sortEach rest
    pure ((p.1, l) :: rest')

/-- The body of the `records` cached property, applied to a drained listing:
group by name, then sort each group by `(type, content)`. -/
def recordsOfListing (blobs : List Dict) :
    Except Err (List (Val × List Record)) := do
  let m ← groupByName (blobs.map mkRecord) []
  sortEach m

/-- `Zone.records` (a `cached_property`): return the cached index when
present; otherwise build it from a fresh paginated listing and cache it. -/
def Zone.records (svc : Service) (z : Zone) :
    Except Err ((List (Val × List Record)) × Zone × List NetCall) :=
  match z.recordsCache with
  | some m => pure (m, z, [])
  | none => do
    let zoneId ← Zone.getattr z "id"
    let m ← recordsOfListing (svc.dnsRecords zoneId)
    pure (m, { z with recordsCache := some m }, [NetCall.getDnsRecords zoneId])

/-- The payload dict built by `Zone.create_record`: always `name`, `type`,
`content`, `ttl`, `proxied`; `priority` only when `type == 'MX'`. -/
def Zone.create_record_payload (name type content ttl proxied priority : Val) :
    Dict :=
  let data : Dict :=
    [("name", name), ("type", type), ("content", content),
     ("ttl", ttl), ("proxied", proxied)]
  if type = Val.str "MX" then ainsert data "priority" priority else data

/-- `Zone.create_record`: build the payload, post it to the records endpoint
for this zone's id, clear the `records` cache, and wrap the response. -/
def Zone.create_record (svc : Service) (z : Zone)
    (name type content ttl proxied priority : Val) :
    Except Err (Record × Zone × List NetCall) := do
  let data := Zone.create_record_payload name type content ttl proxied priority
  let zoneId ← Zone.getattr z "id"
  let record := svc.createResponse zoneId data
  pure (mkRecord record, { z with recordsCache := none },
        [NetCall.createDnsRecord zoneId data])

/-- `Record.save`: no-op without pending edits; otherwise submit the edits
to the update endpoint for `(zone.id, self.id)` (both attribute reads go
through `__getattr__`, so a staged `id` edit wins), merge the response into
the snapshot with `dict.update`, clear the owning zone's `records` cache iff
the edits contained `name`, and clear the edits.  No re-fetch happens: the
only network call is the update itself. -/
def Record.save (svc : Service) (z : Zone) (r : Record) :
    Except Err (Record × Zone × List NetCall) :=
  match r.updates with
  | [] => pure (r, z, [])
  | _ :: _ => do
    let zoneId ← Zone.getattr z "id"
    let recordId ← Record.getattr r "id"
    let result := svc.updateResponse zoneId recordId r.updates
    let z' := if amem r.updates "name" then { z with recordsCache := none }
              else z
    pure ({ data := dictUpdate r.data result, updates := [] }, z',
          [NetCall.updateDnsRecord zoneId recordId r.updates])

/-- `Record.delete`: call the delete endpoint for `(zone.id, self.id)` and
clear the owning zone's `records` cache. -/
def Record.delete (z : Zone) (r : Record) :
    Except Err (Zone × List NetCall) := do
  let zoneId ← Zone.getattr z "id"
  let recordId ← Record.getattr r "id"
  pure ({ z with recordsCache := none },
        [NetCall.deleteDnsRecord zoneId recordId])

/-! ### User (`class User`; the spec's Account) -/

/-- `User`: the two `cached_property` slots that the claims touch
(`_host_api_data` and `zones`). -/
structure User where
  hostApiData : Option Dict
  zonesCache : Option (List Zone)
deriving DecidableEq

/-- `User.iter_zones`: drain the paginated zone listing into fresh `Zone`
objects. -/
def User.iter_zones (svc : Service) : List Zone :=
  svc.zonesList.map mkZone

/-- `User.zones` (a `cached_property`): return the cached list when present;
otherwise materialize a fresh paginated listing and cache it. -/
def User.zones (svc : Service) (u : User) : List Zone × User × List NetCall :=
  match u.zonesCache with
  | some zs => (zs, u, [])
  | none =>
    let zs := User.iter_zones svc
    (zs, { u with zonesCache := some zs }, [NetCall.getZones])

/-- `Zone.delete`: call the zone-delete endpoint with this zone's id, then
clear the owning user's `zones` cache.  The method assigns nothing on
`self`, which the model renders by returning the receiver unchanged. -/
def Zone.delete (z : Zone) (u : User) :
    Except Err (Zone × User × List NetCall) := do
  let zoneId ← Zone.getattr z "id"
  pure (z, { u with zonesCache := none }, [NetCall.deleteZone zoneId])

/-! ## Association-list lemmas -/

theorem amem_eq_false_iff {κ α : Type} [DecidableEq κ] {d : List (κ × α)}
    {k : κ} : amem d k = false ↔ alookup d k = none := by
  cases h : alookup d k <;> simp [amem, h]

theorem alookup_map_replace_self {κ α : Type} [DecidableEq κ]
    {d : List (κ × α)} {k : κ} (v : α) (h : amem d k = true) :
    alookup (d.map (fun p => if p.1 = k then (k, v) else p)) k = some v := by
  induction d with
  | nil => simp [amem, alookup] at h
  | cons p rest ih =>
    by_cases hp : p.1 = k
    · simp [alookup, hp]
    · have h' : amem rest k = true := by
        simpa [amem, alookup, hp] using h
      simpa [alookup, hp] using ih h'

theorem alookup_map_replace_ne {κ α : Type} [DecidableEq κ]
    {d : List (κ × α)} {k k' : κ} (v : α) (h : k' ≠ k) :
    alookup (d.map (fun p => if p.1 = k then (k, v) else p)) k' =
      alookup d k' := by
  induction d with
  | nil => rfl
  | cons p rest ih =>
    by_cases hp : p.1 = k
    · have : ¬ (k = k') := fun hk => h hk.symm
      simp [alookup, hp, this, ih]
    · simp [alookup, hp, ih]

theorem alookup_append_single_self {κ α : Type} [DecidableEq κ]
    {d : List (κ × α)} {k : κ} (v : α) (h : amem d k = false) :
    alookup (d ++ [(k, v)]) k = some v := by
  induction d with
  | nil => simp [alookup]
  | cons p rest ih =>
    by_cases hp : p.1 = k
    · simp [amem, alookup, hp] at h
    · have h' : amem rest k = false := by
        simpa [amem, alookup, hp] using h
      simpa [alookup, hp] using ih h'

theorem alookup_append_single_ne {κ α : Type} [DecidableEq κ]
    {d : List (κ × α)} {k k' : κ} (v : α) (h : k' ≠ k) :
    alookup (d ++ [(k, v)]) k' = alookup d k' := by
  induction d with
  | nil => simp [alookup, Ne.symm h]
  | cons p rest ih =>
    by_cases hp : p.1 = k'
    · simp [alookup, hp]
    · simp [alookup, hp, ih]

theorem alookup_ainsert_self {κ α : Type} [DecidableEq κ]
    (d : List (κ × α)) (k : κ) (v : α) :
    alookup (ainsert d k v) k = some v := by
  unfold ainsert
  by_cases h : amem d k = true
  · simp [h, alookup_map_replace_self v h]
  · have h' : amem d k = false := by simpa using h
    simp [h', alookup_append_single_self v h']

theorem alookup_ainsert_ne {κ α : Type} [DecidableEq κ]
    (d : List (κ × α)) (k k' : κ) (v : α) (h : k' ≠ k) :
    alookup (ainsert d k v) k' = alookup d k' := by
  unfold ainsert
  by_cases hm : amem d k
  · simp [hm, alookup_map_replace_ne v h]
  · simp [hm, alookup_append_single_ne v h]

theorem dictUpdate_cons {κ α : Type} [DecidableEq κ]
    (d : List (κ × α)) (p : κ × α) (rest : List (κ × α)) :
    dictUpdate d (p :: rest) = dictUpdate (ainsert d p.1 p.2) rest := rfl

theorem alookup_dictUpdate_of_not_mem {κ α : Type} [DecidableEq κ]
    {other : List (κ × α)} {k : κ} (d : List (κ × α))
    (h : amem other k = false) :
    alookup (dictUpdate d other) k = alookup d k := by
  induction other generalizing d with
  | nil => rfl
  | cons p rest ih =>
    have hp : ¬ (p.1 = k) := by
      intro hk
      simp [amem, alookup, hk] at h
    have h' : amem rest k = false := by
      simpa [amem, alookup, hp] using h
    rw [dictUpdate_cons, ih _ h',
      alookup_ainsert_ne _ _ _ _ (fun hk => hp hk.symm)]

theorem alookup_mem_map_fst {κ α : Type} [DecidableEq κ]
    {d : List (κ × α)} {k : κ} {v : α} (h : alookup d k = some v) :
    k ∈ d.map Prod.fst := by
  induction d with
  | nil => simp [alookup] at h
  | cons p rest ih =>
    by_cases hp : p.1 = k
    · simp [hp]
    · rw [alookup, if_neg hp] at h
      simp [ih h]

theorem alookup_dictUpdate_of_mem {κ α : Type} [DecidableEq κ]
    {other : List (κ × α)} {k : κ} {v : α} (d : List (κ × α))
    (hnd : (other.map Prod.fst).Nodup)
    (h : alookup other k = some v) :
    alookup (dictUpdate d other) k = some v := by
  induction other generalizing d with
  | nil => simp [alookup] at h
  | cons p rest ih =>
    by_cases hp : p.1 = k
    · have hv : v = p.2 := by
        rw [alookup, if_pos hp] at h
        exact (Option.some.inj h).symm
      have hk : amem rest k = false := by
        rw [amem_eq_false_iff]
        cases hrk : alookup rest k with
        | none => rfl
        | some w =>
          have hmem := alookup_mem_map_fst hrk
          have hnotin : p.1 ∉ rest.map Prod.fst :=
            (List.nodup_cons.mp hnd).1
          exact absurd (by rw [hp]; exact hmem) hnotin
      rw [dictUpdate_cons,
        alookup_dictUpdate_of_not_mem (ainsert d p.1 p.2) hk, hp,
        alookup_ainsert_self, hv]
    · have h' : alookup rest k = some v := by
        rw [alookup, if_neg hp] at h; exact h
      rw [dictUpdate_cons]
      exact ih (ainsert d p.1 p.2) (List.nodup_cons.mp hnd).2 h'

/-! ## The sort order: totality, transitivity -/

theorem strLE_total (a b : List Char) :
    strLE a b = true ∨ strLE b a = true := by
  induction a generalizing b with
  | nil => left; rfl
  | cons x xs ih =>
    cases b with
    | nil => right; rfl
    | cons y ys =>
      by_cases hxy : x = y
      · subst hxy
        simpa [strLE] using ih ys
      · have hyx : ¬ (y = x) := fun h => hxy h.symm
        simp only [strLE, if_neg hxy, if_neg hyx]
        rcases lt_trichotomy x y with h | h | h
        · left; exact decide_eq_true h
        · exact absurd h hxy
        · right; exact decide_eq_true h

theorem strLE_trans (a b c : List Char) (h1 : strLE a b = true)
    (h2 : strLE b c = true) : strLE a c = true := by
  induction a generalizing b c with
  | nil => rfl
  | cons x xs ih =>
    cases b with
    | nil => exact absurd h1 (by simp [strLE])
    | cons y ys =>
      cases c with
      | nil => exact absurd h2 (by simp [strLE])
      | cons z zs =>
        by_cases hxy : x = y <;> by_cases hyz : y = z
        · subst hxy; subst hyz
          simp only [strLE, if_pos rfl] at h1 h2 ⊢
          exact ih ys zs h1 h2
        · subst hxy
          simp only [strLE, if_pos rfl, if_neg hyz] at h2 ⊢
          exact h2
        · subst hyz
          simp only [strLE, if_neg hxy] at h1 ⊢
          exact h1
        · simp only [strLE, if_neg hxy, if_neg hyz] at h1 h2
          have hlt : x < z := lt_trans (of_decide_eq_true h1) (of_decide_eq_true h2)
          have hxz : ¬ (x = z) := fun h => absurd (h ▸ hlt) (lt_irrefl z)
          simp only [strLE, if_neg hxz]
          exact decide_eq_true hlt

theorem strLE_antisymm (a b : List Char) (h1 : strLE a b = true)
    (h2 : strLE b a = true) : a = b := by
  induction a generalizing b with
  | nil =>
    cases b with
    | nil => rfl
    | cons y ys => exact absurd h2 (by simp [strLE])
  | cons x xs ih =>
    cases b with
    | nil => exact absurd h1 (by simp [strLE])
    | cons y ys =>
      by_cases hxy : x = y
      · subst hxy
        simp only [strLE, if_pos rfl] at h1 h2
        rw [ih ys h1 h2]
      · have hyx : ¬ (y = x) := fun h => hxy h.symm
        simp only [strLE, if_neg hxy, if_neg hyx] at h1 h2
        exact absurd (of_decide_eq_true h2)
          (lt_asymm (of_decide_eq_true h1))

theorem valLE_total (a b : Val) : Val.le a b = true ∨ Val.le b a = true := by
  cases a with
  | str s1 =>
    cases b with
    | str s2 => exact strLE_total s1.data s2.data
    | nat _ => left; rfl
    | bool _ => left; rfl
  | nat n1 =>
    cases b with
    | str _ => right; rfl
    | nat n2 =>
      rcases Nat.le_total n1 n2 with h | h
      · left; exact decide_eq_true h
      · right; exact decide_eq_true h
    | bool _ => left; rfl
  | bool b1 =>
    cases b with
    | str _ => right; rfl
    | nat _ => right; rfl
    | bool b2 =>
      rcases le_total b1 b2 with h | h
      · left; exact decide_eq_true h
      · right; exact decide_eq_true h

theorem valLE_trans (a b c : Val) (h1 : Val.le a b = true)
    (h2 : Val.le b c = true) : Val.le a c = true := by
  cases a <;> cases b <;> cases c <;>
    first
      | rfl
      | exact Bool.noConfusion h1
      | exact Bool.noConfusion h2
      | exact strLE_trans _ _ _ h1 h2
      | exact decide_eq_true
          (le_trans (of_decide_eq_true h1) (of_decide_eq_true h2))

theorem valLE_antisymm (a b : Val) (h1 : Val.le a b = true)
    (h2 : Val.le b a = true) : a = b := by
  cases a <;> cases b <;>
    first
      | exact Bool.noConfusion h1
      | exact Bool.noConfusion h2
      | exact congrArg Val.str (String.ext (strLE_antisymm _ _ h1 h2))
      | exact congrArg Val.nat
          (le_antisymm (of_decide_eq_true h1) (of_decide_eq_true h2))
      | exact congrArg Val.bool
          (le_antisymm (of_decide_eq_true h1) (of_decide_eq_true h2))

theorem pairLE_total (p q : Val × Val) :
    pairLE p q = true ∨ pairLE q p = true := by
  unfold pairLE
  by_cases h : p.1 = q.1
  · have h' : q.1 = p.1 := h.symm
    simp only [if_pos h, if_pos h']
    exact valLE_total p.2 q.2
  · have h' : ¬ (q.1 = p.1) := fun hk => h hk.symm
    simp only [if_neg h, if_neg h']
    exact valLE_total p.1 q.1

theorem pairLE_trans (p q r : Val × Val) (h1 : pairLE p q = true)
    (h2 : pairLE q r = true) : pairLE p r = true := by
  unfold pairLE at h1 h2 ⊢
  by_cases hpq : p.1 = q.1 <;> by_cases hqr : q.1 = r.1
  · rw [if_pos hpq] at h1
    rw [if_pos hqr] at h2
    rw [if_pos (hpq.trans hqr)]
    exact valLE_trans _ _ _ h1 h2
  · rw [if_pos hpq] at h1
    rw [if_neg hqr] at h2
    have hpr : ¬ (p.1 = r.1) := fun h => hqr (hpq ▸ h)
    rw [if_neg hpr]
    rw [hpq]
    exact h2
  · rw [if_neg hpq] at h1
    rw [if_pos hqr] at h2
    have hpr : ¬ (p.1 = r.1) := fun h => hpq (h.trans hqr.symm)
    rw [if_neg hpr, ← hqr]
    exact h1
  · rw [if_neg hpq] at h1
    rw [if_neg hqr] at h2
    by_cases hpr : p.1 = r.1
    · exfalso
      rw [← hpr] at h2
      exact hpq (valLE_antisymm _ _ h1 h2)
    · rw [if_neg hpr]
      exact valLE_trans _ _ _ h1 h2

instance : IsTotal ((Val × Val) × Record) keyLE :=
  ⟨fun a b => pairLE_total a.1 b.1⟩

instance : IsTrans ((Val × Val) × Record) keyLE :=
  ⟨fun a b c h1 h2 => pairLE_trans a.1 b.1 c.1 h1 h2⟩

/-! ## Lemmas about the records-index construction -/

/-- The ordering the claim asserts of each list in the records index: the
sort keys `(type, content)` are pairwise nondecreasing. -/
def keyOrdered (r1 r2 : Record) : Prop :=
  ∀ k1 k2, Record.sortKeyOf r1 = Except.ok k1 →
    Record.sortKeyOf r2 = Except.ok k2 → pairLE k1 k2 = true

theorem decorate_keys {l : List Record} {ks : List ((Val × Val) × Record)}
    (h : decorate l = Except.ok ks) :
    ∀ x ∈ ks, Record.sortKeyOf x.2 = Except.ok x.1 := by
  induction l generalizing ks with
  | nil =>
    simp only [decorate, pure, Except.pure, Except.ok.injEq] at h
    subst h
    intro x hx
    simp at hx
  | cons r rest ih =>
    rw [decorate] at h
    cases hk : Record.sortKeyOf r with
    | error e => rw [hk] at h; simp only [bind, Except.bind] at h; exact Except.noConfusion h
    | ok k =>
      rw [hk] at h
      cases hrest : decorate rest with
      | error e =>
        rw [hrest] at h; simp only [bind, Except.bind] at h; exact Except.noConfusion h
      | ok ks' =>
        rw [hrest] at h
        simp only [bind, Except.bind, pure, Except.pure, Except.ok.injEq] at h
        subst h
        intro x hx
        rcases List.mem_cons.mp hx with hx | hx
        · subst hx; exact hk
        · exact ih hrest x hx

theorem decorate_map_snd {l : List Record}
    {ks : List ((Val × Val) × Record)} (h : decorate l = Except.ok ks) :
    ks.map Prod.snd = l := by
  induction l generalizing ks with
  | nil =>
    simp only [decorate, pure, Except.pure, Except.ok.injEq] at h
    subst h; rfl
  | cons r rest ih =>
    rw [decorate] at h
    cases hk : Record.sortKeyOf r with
    | error e => rw [hk] at h; simp only [bind, Except.bind] at h; exact Except.noConfusion h
    | ok k =>
      rw [hk] at h
      cases hrest : decorate rest with
      | error e =>
        rw [hrest] at h; simp only [bind, Except.bind] at h; exact Except.noConfusion h
      | ok ks' =>
        rw [hrest] at h
        simp only [bind, Except.bind, pure, Except.pure, Except.ok.injEq] at h
        subst h
        simp [ih hrest]

theorem decorate_total {l : List Record}
    (h : ∀ r ∈ l, ∃ k, Record.sortKeyOf r = Except.ok k) :
    ∃ ks, decorate l = Except.ok ks := by
  induction l with
  | nil => exact ⟨[], rfl⟩
  | cons r rest ih =>
    rcases h r (List.mem_cons_self r rest) with ⟨k, hk⟩
    rcases ih (fun r' hr' => h r' (List.mem_cons_of_mem r hr')) with ⟨ks, hks⟩
    refine ⟨(k, r) :: ks, ?_⟩
    rw [decorate, hk, hks]
    rfl

theorem sortRecords_inv {l l' : List Record}
    (h : sortRecords l = Except.ok l') :
    ∃ ks, decorate l = Except.ok ks ∧
      l' = (List.insertionSort keyLE ks).map Prod.snd := by
  unfold sortRecords at h
  cases hks : decorate l with
  | error e => rw [hks] at h; simp only [bind, Except.bind] at h; exact Except.noConfusion h
  | ok ks =>
    rw [hks] at h
    simp only [bind, Except.bind, pure, Except.pure, Except.ok.injEq] at h
    exact ⟨ks, rfl, h.symm⟩

theorem sortRecords_total {l : List Record}
    (h : ∀ r ∈ l, ∃ k, Record.sortKeyOf r = Except.ok k) :
    ∃ l', sortRecords l = Except.ok l' := by
  rcases decorate_total h with ⟨ks, hks⟩
  refine ⟨(List.insertionSort keyLE ks).map Prod.snd, ?_⟩
  unfold sortRecords
  rw [hks]
  rfl

theorem sortRecords_mem {l l' : List Record}
    (h : sortRecords l = Except.ok l') (r : Record) : r ∈ l' ↔ r ∈ l := by
  rcases sortRecords_inv h with ⟨ks, hks, hl'⟩
  subst hl'
  rw [← decorate_map_snd hks]
  constructor
  · rintro hr
    rcases List.mem_map.mp hr with ⟨x, hx, hxr⟩
    exact List.mem_map.mpr
      ⟨x, ((List.perm_insertionSort keyLE ks).mem_iff).mp hx, hxr⟩
  · rintro hr
    rcases List.mem_map.mp hr with ⟨x, hx, hxr⟩
    exact List.mem_map.mpr
      ⟨x, ((List.perm_insertionSort keyLE ks).mem_iff).mpr hx, hxr⟩

theorem sortRecords_sorted {l l' : List Record}
    (h : sortRecords l = Except.ok l') : l'.Pairwise keyOrdered := by
  rcases sortRecords_inv h with ⟨ks, hks, hl'⟩
  subst hl'
  have hsorted : (List.insertionSort keyLE ks).Pairwise keyLE :=
    List.sorted_insertionSort keyLE ks
  rw [List.pairwise_map]
  refine hsorted.imp_of_mem ?_
  intro a b ha hb hab
  have hka : Record.sortKeyOf a.2 = Except.ok a.1 :=
    decorate_keys hks a (((List.perm_insertionSort keyLE ks).mem_iff).mp ha)
  have hkb : Record.sortKeyOf b.2 = Except.ok b.1 :=
    decorate_keys hks b (((List.perm_insertionSort keyLE ks).mem_iff).mp hb)
  intro k1 k2 h1 h2
  have e1 : k1 = a.1 := Except.ok.inj (h1.symm.trans hka)
  have e2 : k2 = b.1 := Except.ok.inj (h2.symm.trans hkb)
  rw [e1, e2]
  exact hab

theorem alookup_groupInsert_self (m : List (Val × List Record)) (k : Val)
    (r : Record) :
    alookup (groupInsert m k r) k = some ((alookup m k).getD [] ++ [r]) := by
  induction m with
  | nil => simp [groupInsert, alookup]
  | cons p rest ih =>
    by_cases hp : p.1 = k
    · simp [groupInsert, alookup, hp]
    · simp [groupInsert, alookup, hp, ih]

theorem alookup_groupInsert_ne (m : List (Val × List Record)) {k k' : Val}
    (r : Record) (h : k' ≠ k) :
    alookup (groupInsert m k r) k' = alookup m k' := by
  induction m with
  | nil => simp [groupInsert, alookup, Ne.symm h]
  | cons p rest ih =>
    by_cases hp : p.1 = k
    · subst hp
      simp [groupInsert, alookup, Ne.symm h]
    · by_cases hp' : p.1 = k'
      · simp [groupInsert, alookup, hp, hp', h]
      · simp [groupInsert, alookup, hp, hp', ih]

theorem groupInsert_origin {m : List (Val × List Record)} {k : Val}
    {r0 : Record} :
    ∀ p ∈ groupInsert m k r0, ∀ r ∈ p.2,
      (∃ q ∈ m, r ∈ q.2) ∨ r = r0 := by
  induction m with
  | nil =>
    intro p hp r hr
    simp only [groupInsert, List.mem_singleton] at hp
    subst hp
    simp only [List.mem_singleton] at hr
    exact Or.inr hr
  | cons q rest ih =>
    intro p hp r hr
    by_cases hq : q.1 = k
    · simp only [groupInsert, if_pos hq, List.mem_cons] at hp
      rcases hp with hp | hp
      · subst hp
        simp only [List.mem_append, List.mem_singleton] at hr
        rcases hr with hr | hr
        · exact Or.inl ⟨q, List.mem_cons_self q rest, hr⟩
        · exact Or.inr hr
      · exact Or.inl ⟨p, List.mem_cons_of_mem q hp, hr⟩
    · simp only [groupInsert, if_neg hq, List.mem_cons] at hp
      rcases hp with hp | hp
      · subst hp
        exact Or.inl ⟨p, List.mem_cons_self p rest, hr⟩
      · rcases ih p hp r hr with ⟨q', hq', hr'⟩ | hr'
        · exact Or.inl ⟨q', List.mem_cons_of_mem q hq', hr'⟩
        · exact Or.inr hr'

theorem groupByName_total {l : List Record}
    (h : ∀ r ∈ l, ∃ n, Record.getattr r "name" = Except.ok n) :
    ∀ m, ∃ m', groupByName l m = Except.ok m' := by
  induction l with
  | nil => exact fun m => ⟨m, rfl⟩
  | cons r rest ih =>
    intro m
    rcases h r (List.mem_cons_self r rest) with ⟨n, hn⟩
    rcases ih (fun r' hr' => h r' (List.mem_cons_of_mem r hr'))
      (groupInsert m n r) with ⟨m', hm'⟩
    refine ⟨m', ?_⟩
    rw [groupByName, hn]
    exact hm'

theorem groupByName_preserves {l : List Record}
    {m m' : List (Val × List Record)} (h : groupByName l m = Except.ok m')
    {k : Val} {lst : List Record} {r : Record}
    (hk : alookup m k = some lst) (hr : r ∈ lst) :
    ∃ lst', alookup m' k = some lst' ∧ r ∈ lst' := by
  induction l generalizing m lst with
  | nil =>
    simp only [groupByName, pure, Except.pure, Except.ok.injEq] at h
    subst h
    exact ⟨lst, hk, hr⟩
  | cons r0 rest ih =>
    rw [groupByName] at h
    cases hn : Record.getattr r0 "name" with
    | error e => rw [hn] at h; simp only [bind, Except.bind] at h; exact Except.noConfusion h
    | ok n =>
      rw [hn] at h
      simp only [bind, Except.bind] at h
      by_cases hkn : k = n
      · subst hkn
        have hins := alookup_groupInsert_self m k r0
        rw [hk] at hins
        exact ih h hins (List.mem_append_left _ hr)
      · exact ih h ((alookup_groupInsert_ne m r0 hkn).trans hk) hr

theorem groupByName_adds {l : List Record}
    {m m' : List (Val × List Record)} (h : groupByName l m = Except.ok m')
    {r : Record} (hr : r ∈ l) {n : Val}
    (hn : Record.getattr r "name" = Except.ok n) :
    ∃ lst, alookup m' n = some lst ∧ r ∈ lst := by
  induction l generalizing m with
  | nil => simp at hr
  | cons r0 rest ih =>
    rw [groupByName] at h
    cases hn0 : Record.getattr r0 "name" with
    | error e => rw [hn0] at h; simp only [bind, Except.bind] at h; exact Except.noConfusion h
    | ok n0 =>
      rw [hn0] at h
      simp only [bind, Except.bind] at h
      rcases List.mem_cons.mp hr with hr0 | hrest
      · subst hr0
        have : n0 = n := Except.ok.inj (hn0.symm.trans hn)
        subst this
        have hins := alookup_groupInsert_self m n0 r
        exact groupByName_preserves h hins
          (List.mem_append_right _ (List.mem_singleton.mpr rfl))
      · exact ih h hrest

theorem groupByName_origin {l : List Record}
    {m m' : List (Val × List Record)} (h : groupByName l m = Except.ok m') :
    ∀ p ∈ m', ∀ r ∈ p.2, (∃ q ∈ m, r ∈ q.2) ∨ r ∈ l := by
  induction l generalizing m with
  | nil =>
    simp only [groupByName, pure, Except.pure, Except.ok.injEq] at h
    subst h
    intro p hp r hr
    exact Or.inl ⟨p, hp, hr⟩
  | cons r0 rest ih =>
    rw [groupByName] at h
    cases hn : Record.getattr r0 "name" with
    | error e => rw [hn] at h; simp only [bind, Except.bind] at h; exact Except.noConfusion h
    | ok n =>
      rw [hn] at h
      simp only [bind, Except.bind] at h
      intro p hp r hr
      rcases ih h p hp r hr with hin | hin
      · rcases hin with ⟨q, hq, hrq⟩
        rcases groupInsert_origin q hq r hrq with hin' | hin'
        · exact Or.inl hin'
        · exact Or.inr (hin' ▸ List.mem_cons_self r0 rest)
      · exact Or.inr (List.mem_cons_of_mem r0 hin)

theorem sortEach_total {m : List (Val × List Record)}
    (h : ∀ p ∈ m, ∃ l', sortRecords p.2 = Except.ok l') :
    ∃ m', sortEach m = Except.ok m' := by
  induction m with
  | nil => exact ⟨[], rfl⟩
  | cons p rest ih =>
    rcases h p (List.mem_cons_self p rest) with ⟨l', hl'⟩
    rcases ih (fun q hq => h q (List.mem_cons_of_mem p hq)) with ⟨m', hm'⟩
    refine ⟨(p.1, l') :: m', ?_⟩
    rw [sortEach, hl', hm']
    rfl

theorem sortEach_lookup {m m' : List (Val × List Record)}
    (h : sortEach m = Except.ok m') {k : Val} {lst : List Record}
    (hk : alookup m k = some lst) :
    ∃ lst', alookup m' k = some lst' ∧ sortRecords lst = Except.ok lst' := by
  induction m generalizing m' with
  | nil => simp [alookup] at hk
  | cons p rest ih =>
    rw [sortEach] at h
    cases hs : sortRecords p.2 with
    | error e => rw [hs] at h; simp only [bind, Except.bind] at h; exact Except.noConfusion h
    | ok l' =>
      rw [hs] at h
      cases hrest : sortEach rest with
      | error e =>
        rw [hrest] at h; simp only [bind, Except.bind] at h; exact Except.noConfusion h
      | ok m'' =>
        rw [hrest] at h
        simp only [bind, Except.bind, pure, Except.pure,
          Except.ok.injEq] at h
        subst h
        by_cases hp : p.1 = k
        · rw [alookup, if_pos hp] at hk
          refine ⟨l', ?_, ?_⟩
          · rw [alookup, if_pos hp]
          · rw [← Option.some.inj hk]
            exact hs
        · rw [alookup, if_neg hp] at hk
          rcases ih hrest hk with ⟨lst', hl1, hl2⟩
          refine ⟨lst', ?_, hl2⟩
          rw [alookup, if_neg hp]
          exact hl1

theorem sortEach_entries {m m' : List (Val × List Record)}
    (h : sortEach m = Except.ok m') :
    ∀ p' ∈ m', ∃ p ∈ m, p'.1 = p.1 ∧ sortRecords p.2 = Except.ok p'.2 := by
  induction m generalizing m' with
  | nil =>
    simp only [sortEach, pure, Except.pure, Except.ok.injEq] at h
    subst h
    intro p' hp'
    simp at hp'
  | cons p rest ih =>
    rw [sortEach] at h
    cases hs : sortRecords p.2 with
    | error e => rw [hs] at h; simp only [bind, Except.bind] at h; exact Except.noConfusion h
    | ok l' =>
      rw [hs] at h
      cases hrest : sortEach rest with
      | error e =>
        rw [hrest] at h; simp only [bind, Except.bind] at h; exact Except.noConfusion h
      | ok m'' =>
        rw [hrest] at h
        simp only [bind, Except.bind, pure, Except.pure,
          Except.ok.injEq] at h
        subst h
        intro p' hp'
        rcases List.mem_cons.mp hp' with hp' | hp'
        · subst hp'
          exact ⟨p, List.mem_cons_self p rest, rfl, hs⟩
        · rcases ih hrest p' hp' with ⟨q, hq, h1, h2⟩
          exact ⟨q, List.mem_cons_of_mem p hq, h1, h2⟩

/-- Reading a field of a freshly wrapped record is a snapshot lookup. -/
theorem mkRecord_getattr_of_mem {blob : Dict} {nm : String} {v : Val}
    (h : alookup blob nm = some v) :
    Record.getattr (mkRecord blob) nm = Except.ok v := by
  simp [Record.getattr, mkRecord, alookup, h]

theorem mkRecord_sortKey {blob : Dict} {t c : Val}
    (ht : alookup blob "type" = some t)
    (hc : alookup blob "content" = some c) :
    Record.sortKeyOf (mkRecord blob) = Except.ok (t, c) := by
  rw [Record.sortKeyOf, mkRecord_getattr_of_mem ht]
  simp only [bind, Except.bind]
  rw [mkRecord_getattr_of_mem hc]
  rfl

/-! ## Operation-level helper lemmas -/

theorem Record.save_spec (svc : Service) (z : Zone) (r : Record)
    {zid rid : Val} (hne : r.updates ≠ [])
    (hzid : Zone.getattr z "id" = Except.ok zid)
    (hrid : Record.getattr r "id" = Except.ok rid) :
    Record.save svc z r = Except.ok
      ({ data := dictUpdate r.data (svc.updateResponse zid rid r.updates),
         updates := [] },
       (if amem r.updates "name" then { z with recordsCache := none } else z),
       [NetCall.updateDnsRecord zid rid r.updates]) := by
  obtain ⟨a, l, hu⟩ : ∃ a l, r.updates = a :: l := by
    cases hu : r.updates with
    | nil => exact absurd hu hne
    | cons a l => exact ⟨a, l, rfl⟩
  conv => lhs; rw [Record.save, hu]
  rw [hzid]
  simp only [bind, Except.bind]
  rw [hrid]
  simp only [pure, Except.pure]
  rw [← hu]

theorem Record.delete_spec (z : Zone) (r : Record) {zid rid : Val}
    (hzid : Zone.getattr z "id" = Except.ok zid)
    (hrid : Record.getattr r "id" = Except.ok rid) :
    Record.delete z r = Except.ok
      ({ z with recordsCache := none },
       [NetCall.deleteDnsRecord zid rid]) := by
  rw [Record.delete, hzid]
  simp only [bind, Except.bind]
  rw [hrid]
  rfl

theorem recordsOfListing_spec {blobs : List Dict}
    (hfields : ∀ blob ∈ blobs, (alookup blob "name").isSome ∧
      (alookup blob "type").isSome ∧ (alookup blob "content").isSome) :
    ∃ m, recordsOfListing blobs = Except.ok m ∧
      (∀ blob ∈ blobs, ∀ n, alookup blob "name" = some n →
        ∃ lst, alookup m n = some lst ∧ mkRecord blob ∈ lst) ∧
      (∀ p ∈ m, p.2.Pairwise keyOrdered) := by
  have hnames : ∀ r ∈ blobs.map mkRecord,
      ∃ n, Record.getattr r "name" = Except.ok n := by
    intro r hr
    rcases List.mem_map.mp hr with ⟨blob, hblob, hmk⟩
    rcases Option.isSome_iff_exists.mp (hfields blob hblob).1 with ⟨n, hn⟩
    exact ⟨n, hmk ▸ mkRecord_getattr_of_mem hn⟩
  rcases groupByName_total hnames [] with ⟨m0, hm0⟩
  have hkeys : ∀ p ∈ m0, ∀ r ∈ p.2,
      ∃ k, Record.sortKeyOf r = Except.ok k := by
    intro p hp r hr
    rcases groupByName_origin hm0 p hp r hr with ⟨q, hq, _⟩ | hr'
    · simp at hq
    · rcases List.mem_map.mp hr' with ⟨blob, hblob, hmk⟩
      rcases Option.isSome_iff_exists.mp (hfields blob hblob).2.1 with ⟨t, ht⟩
      rcases Option.isSome_iff_exists.mp (hfields blob hblob).2.2 with ⟨c, hc⟩
      exact ⟨(t, c), hmk ▸ mkRecord_sortKey ht hc⟩
  rcases sortEach_total
    (fun p hp => sortRecords_total (hkeys p hp)) with ⟨m, hm⟩
  refine ⟨m, ?_, ?_, ?_⟩
  · rw [recordsOfListing, hm0]
    simp only [bind, Except.bind]
    exact hm
  · intro blob hblob n hn
    have hget : Record.getattr (mkRecord blob) "name" = Except.ok n :=
      mkRecord_getattr_of_mem hn
    rcases groupByName_adds hm0 (List.mem_map_of_mem mkRecord hblob)
        hget with ⟨lst, hlst, hmemlst⟩
    rcases sortEach_lookup hm hlst with ⟨lst', hlst', hsorted⟩
    exact ⟨lst', hlst', (sortRecords_mem hsorted _).mpr hmemlst⟩
  · intro p hp
    rcases sortEach_entries hm p hp with ⟨q, _, _, hsorted⟩
    exact sortRecords_sorted hsorted

/-! ## The claims -/

/-- Claim C3: for every call to `Zone.create_record(name, type, content,,
ttl, proxied, priority)`, the posted payload contains a `priority` field iff
`type == 'MX'`; `name`, `type`, `content`, `ttl` and `proxied` are always
included; and the create call posts exactly that payload to the records
endpoint. -/
theorem create_record_priority_payload
    (name type content ttl proxied priority : Val) :
    (amem (Zone.create_record_payload name type content ttl proxied priority)
        "priority" = true ↔ type = Val.str "MX") ∧
    amem (Zone.create_record_payload name type content ttl proxied priority)
      "name" = true ∧
    amem (Zone.create_record_payload name type content ttl proxied priority)
      "type" = true ∧
    amem (Zone.create_record_payload name type content ttl proxied priority)
      "content" = true ∧
    amem (Zone.create_record_payload name type content ttl proxied priority)
      "ttl" = true ∧
    amem (Zone.create_record_payload name type content ttl proxied priority)
      "proxied" = true ∧
    (∀ (svc : Service) (z : Zone) (zid : Val),
      Zone.getattr z "id" = Except.ok zid →
      Zone.create_record svc z name type content ttl proxied priority =
        Except.ok (mkRecord (svc.createResponse zid
            (Zone.create_record_payload name type content ttl proxied
              priority)),
          { z with recordsCache := none },
          [NetCall.createDnsRecord zid
            (Zone.create_record_payload name type content ttl proxied
              priority)])) := by
  refine ⟨?_, ?_, ?_, ?_, ?_, ?_, ?_⟩
  · constructor
    · intro hmem
      by_contra hty
      simp [Zone.create_record_payload, hty, amem, alookup] at hmem
    · intro hty
      simp [Zone.create_record_payload, hty, amem, alookup, ainsert]
  · by_cases hty : type = Val.str "MX" <;>
      simp [Zone.create_record_payload, hty, amem, alookup, ainsert]
  · by_cases hty : type = Val.str "MX" <;>
      simp [Zone.create_record_payload, hty, amem, alookup, ainsert]
  · by_cases hty : type = Val.str "MX" <;>
      simp [Zone.create_record_payload, hty, amem, alookup, ainsert]
  · by_cases hty : type = Val.str "MX" <;>
      simp [Zone.create_record_payload, hty, amem, alookup, ainsert]
  · by_cases hty : type = Val.str "MX" <;>
      simp [Zone.create_record_payload, hty, amem, alookup, ainsert]
  · intro svc z zid hid
    rw [Zone.create_record, hid]
    simp only [bind, Except.bind]
    rfl

/-- Claim C4, amended: for every `ZoneSettings` and every setting-id present
in the fetched snapshot with `editable` false — provided the setting-id is
not one of the reserved instance-attribute names `zone`, `service`,
`_settings`, `_updates` — writing that setting attribute raises the
NotEditableError (`ValueError`).  The error outcome carries no successor
state, so the pending-edits map is unchanged, and `setattr` takes no
`Service`, so no network call is possible. -/
theorem settings_write_not_editable (s : ZoneSettings) (name : String)
    (v : Val) (blob : SettingBlob)
    (hres : name ∉ zoneSettingsInternalAttrs)
    (hmem : alookup s.settings name = some blob)
    (hed : blob.editable = false) :
    ZoneSettings.setattr s name v = SetResult.err Err.valueError := by
  rw [ZoneSettings.setattr, if_neg hres, hmem]
  simp [hed]

/-- Claim C4 counterexample: a snapshot can key a non-editable descriptor
under the reserved name `zone` (the provider chooses the setting-ids); the
write then takes the reserved-name branch — a plain instance-attribute
assignment — instead of raising NotEditableError, contradicting the claim
as stated. -/
theorem settings_write_not_editable_cex :
    alookup (ZoneSettings.mk [("zone", ⟨"zone", Val.str "active", false⟩)]
        []).settings "zone" = some ⟨"zone", Val.str "active", false⟩ ∧
    (⟨"zone", Val.str "active", false⟩ : SettingBlob).editable = false ∧
    ZoneSettings.setattr
        (ZoneSettings.mk [("zone", ⟨"zone", Val.str "active", false⟩)] [])
        "zone" (Val.str "off") = SetResult.internal ∧
    ZoneSettings.setattr
        (ZoneSettings.mk [("zone", ⟨"zone", Val.str "active", false⟩)] [])
        "zone" (Val.str "off") ≠ SetResult.err Err.valueError := by
  refine ⟨rfl, rfl, rfl, ?_⟩
  decide

/-- Claim C5, amended: for every `Record` and every field name that is not
one of the reserved instance-attribute names `zone`, `service`, `_data`,
`_updates`: writing a name absent from the last-fetched snapshot raises
AttributeNotFoundError (`AttributeError`) and — the error outcome carrying
no successor state — leaves the pending-edits map unchanged, while writing
a name present in the snapshot stages the value in the pending-edits map;
`setattr` takes no `Service`, so neither path contacts the server. -/
theorem record_write_staging (r : Record) (name : String) (v : Val)
    (hres : name ∉ recordInternalAttrs) :
    (amem r.data name = false →
      Record.setattr r name v = SetResult.err Err.attributeError) ∧
    (amem r.data name = true →
      Record.setattr r name v =
        SetResult.ok { r with updates := ainsert r.updates name v }) := by
  constructor
  · intro habs
    rw [Record.setattr, if_neg hres, habs]
    rfl
  · intro hpres
    rw [Record.setattr, if_neg hres, hpres]
    rfl

/-- Claim C5 counterexample: the snapshot does not contain the field
`service`, yet writing it does not raise — the reserved-name branch assigns
the instance attribute; and with `zone` present in the snapshot, writing
`zone` is not staged in the pending-edits map either.  Both directions of
the claim as stated fail at these reserved names. -/
theorem record_write_staging_cex :
    amem (Record.mk [("name", Val.str "www")] []).data "service" = false ∧
    Record.setattr (Record.mk [("name", Val.str "www")] []) "service"
      (Val.str "x") = SetResult.internal ∧
    Record.setattr (Record.mk [("name", Val.str "www")] []) "service"
      (Val.str "x") ≠ SetResult.err Err.attributeError ∧
    amem (Record.mk [("zone", Val.str "z"), ("name", Val.str "www")] []).data
      "zone" = true ∧
    Record.setattr (Record.mk [("zone", Val.str "z"), ("name", Val.str "www")]
      []) "zone" (Val.str "x") = SetResult.internal ∧
    Record.setattr (Record.mk [("zone", Val.str "z"), ("name", Val.str "www")]
        []) "zone" (Val.str "x") ≠
      SetResult.ok (Record.mk [("zone", Val.str "z"), ("name", Val.str "www")]
        [("zone", Val.str "x")]) := by
  refine ⟨rfl, rfl, ?_, rfl, rfl, ?_⟩ <;> decide

/-- Claim C6: reading an attribute of a `Record` or a `ZoneSettings`
returns the staged pending edit when one exists under that name, otherwise
the last-fetched value (for a setting, the descriptor's `value` field), and
raises AttributeNotFoundError (`AttributeError`) when the name is neither
staged nor in the snapshot. -/
theorem attribute_read_resolution :
    (∀ (r : Record) (nm : String) (v : Val), alookup r.updates nm = some v →
      Record.getattr r nm = Except.ok v) ∧
    (∀ (r : Record) (nm : String) (v : Val), alookup r.updates nm = none →
      alookup r.data nm = some v → Record.getattr r nm = Except.ok v) ∧
    (∀ (r : Record) (nm : String), alookup r.updates nm = none →
      alookup r.data nm = none →
      Record.getattr r nm = Except.error Err.attributeError) ∧
    (∀ (s : ZoneSettings) (nm : String) (v : Val),
      alookup s.updates nm = some v →
      ZoneSettings.getattr s nm = Except.ok v) ∧
    (∀ (s : ZoneSettings) (nm : String) (blob : SettingBlob),
      alookup s.updates nm = none → alookup s.settings nm = some blob →
      ZoneSettings.getattr s nm = Except.ok blob.value) ∧
    (∀ (s : ZoneSettings) (nm : String), alookup s.updates nm = none →
      alookup s.settings nm = none →
      ZoneSettings.getattr s nm = Except.error Err.attributeError) := by
  refine ⟨?_, ?_, ?_, ?_, ?_, ?_⟩
  · intro r nm v h
    rw [Record.getattr, h]
  · intro r nm v h1 h2
    rw [Record.getattr, h1, h2]
  · intro r nm h1 h2
    rw [Record.getattr, h1, h2]
  · intro s nm v h
    rw [ZoneSettings.getattr, h]
  · intro s nm blob h1 h2
    rw [ZoneSettings.getattr, h1, h2]
  · intro s nm h1 h2
    rw [ZoneSettings.getattr, h1, h2]

/-- Claim C7: `ZoneSettings.save` with an empty pending-edits map is a
no-op — it issues no network call (in particular neither the settings
submission nor the paginated re-fetch) and returns the object unchanged
(same snapshot, same empty pending-edits map). -/
theorem settings_save_noop (svc : Service) (zoneId : Val) (s : ZoneSettings)
    (h : s.updates = []) :
    ZoneSettings.save svc zoneId s = (s, []) := by
  rw [ZoneSettings.save]
  rw [h]

/-- Claim C9: `Zone.delete` calls the zone-delete endpoint with this zone's
id and clears the owning user's cached zone list while leaving every other
part of the user and the zone's own snapshot unchanged; a subsequent
`zones` access on a cleared cache performs a fresh paginated fetch. -/
theorem zone_delete_invalidates_zones (z : Zone) (u : User) (zid : Val)
    (hid : Zone.getattr z "id" = Except.ok zid) :
    Zone.delete z u =
      Except.ok (z, { u with zonesCache := none },
        [NetCall.deleteZone zid]) ∧
    (∀ (svc : Service) (u' : User), u'.zonesCache = none →
      User.zones svc u' =
        (User.iter_zones svc,
         { u' with zonesCache := some (User.iter_zones svc) },
         [NetCall.getZones])) := by
  constructor
  · rw [Zone.delete, hid]
    rfl
  · intro svc u' hcache
    rw [User.zones, hcache]

/-- Claim C8: `Record.save` with a non-empty pending-edits map submits the
edits to the update endpoint (and nothing else — no re-fetch), merges the
response into the snapshot by overwriting per key — keys absent from the
response keep their previous values — and clears the pending edits. -/
theorem record_save_merge (svc : Service) (z : Zone) (r : Record)
    (zid rid : Val) (hne : r.updates ≠ [])
    (hzid : Zone.getattr z "id" = Except.ok zid)
    (hrid : Record.getattr r "id" = Except.ok rid) :
    (∃ z', Record.save svc z r = Except.ok
      ({ data := dictUpdate r.data (svc.updateResponse zid rid r.updates),
         updates := [] }, z',
       [NetCall.updateDnsRecord zid rid r.updates])) ∧
    (∀ k, amem (svc.updateResponse zid rid r.updates) k = false →
      alookup (dictUpdate r.data (svc.updateResponse zid rid r.updates)) k =
        alookup r.data k) ∧
    (((svc.updateResponse zid rid r.updates).map Prod.fst).Nodup →
      ∀ k v, alookup (svc.updateResponse zid rid r.updates) k = some v →
        alookup (dictUpdate r.data (svc.updateResponse zid rid r.updates)) k =
          some v) := by
  refine ⟨⟨_, Record.save_spec svc z r hne hzid hrid⟩, ?_, ?_⟩
  · intro k hk
    exact alookup_dictUpdate_of_not_mem r.data hk
  · intro hnd k v hk
    exact alookup_dictUpdate_of_mem r.data hnd hk

/-- Claim C10: for a `Record` whose snapshot has an `id` field, staging an
edit to `id` succeeds (the name is not reserved and exists in the snapshot)
and redirects the record-id used by the following `save` and `delete`:
attribute resolution consults pending edits before the snapshot, so the
update and delete endpoints are called with the staged id, not the
snapshot's — a different remote resource when the staged id differs. -/
theorem staged_id_edit_redirects (svc : Service) (z : Zone) (r : Record)
    (zid oldId newId : Val)
    (hid : alookup r.data "id" = some oldId)
    (hzid : Zone.getattr z "id" = Except.ok zid)
    (hne : newId ≠ oldId) :
    Record.setattr r "id" newId =
      SetResult.ok { r with updates := ainsert r.updates "id" newId } ∧
    Record.getattr { r with updates := ainsert r.updates "id" newId } "id" =
      Except.ok newId ∧
    (∃ rec z', Record.save svc z
        { r with updates := ainsert r.updates "id" newId } =
      Except.ok (rec, z',
        [NetCall.updateDnsRecord zid newId
          (ainsert r.updates "id" newId)])) ∧
    Record.delete z { r with updates := ainsert r.updates "id" newId } =
      Except.ok ({ z with recordsCache := none },
        [NetCall.deleteDnsRecord zid newId]) ∧
    NetCall.deleteDnsRecord zid newId ≠ NetCall.deleteDnsRecord zid oldId := by
  have hresv : "id" ∉ recordInternalAttrs := by decide
  have hamem : amem r.data "id" = true := by rw [amem, hid]; rfl
  have hlook : alookup (ainsert r.updates "id" newId) "id" = some newId :=
    alookup_ainsert_self r.updates "id" newId
  have hget : Record.getattr
      { r with updates := ainsert r.updates "id" newId } "id" =
      Except.ok newId := by
    rw [Record.getattr]
    simp only
    rw [hlook]
  have hne' : ainsert r.updates "id" newId ≠ [] := by
    intro hnil
    rw [hnil] at hlook
    exact Option.noConfusion hlook
  refine ⟨?_, hget, ?_, ?_, ?_⟩
  · rw [Record.setattr, if_neg hresv, hamem]
    rfl
  · exact ⟨_, _, Record.save_spec svc z _ hne' hzid hget⟩
  · exact Record.delete_spec z _ hzid hget
  · intro hcall
    simp only [NetCall.deleteDnsRecord.injEq] at hcall
    exact hne hcall.2

/-- Claim C1: each of `Zone.create_record`, `Record.save` with a pending
`name` edit, and `Record.delete` clears the owning zone's cached records
index; and an access to `records` on a cleared cache rebuilds the index
from a fresh paginated listing (the one network call is the listing fetch,
and the result is the freshly built index). -/
theorem records_cache_invalidation :
    (∀ (svc : Service) (z : Zone) (name type content ttl proxied priority :
        Val) (rec : Record) (z' : Zone) (log : List NetCall),
      Zone.create_record svc z name type content ttl proxied priority =
        Except.ok (rec, z', log) → z'.recordsCache = none) ∧
    (∀ (svc : Service) (z : Zone) (r : Record) (rec : Record) (z' : Zone)
        (log : List NetCall), amem r.updates "name" = true →
      Record.save svc z r = Except.ok (rec, z', log) →
      z'.recordsCache = none) ∧
    (∀ (z : Zone) (r : Record) (z' : Zone) (log : List NetCall),
      Record.delete z r = Except.ok (z', log) → z'.recordsCache = none) ∧
    (∀ (svc : Service) (z : Zone), z.recordsCache = none →
      ∀ m z' log, Zone.records svc z = Except.ok (m, z', log) →
        ∃ zid, Zone.getattr z "id" = Except.ok zid ∧
          log = [NetCall.getDnsRecords zid] ∧
          recordsOfListing (svc.dnsRecords zid) = Except.ok m) := by
  refine ⟨?_, ?_, ?_, ?_⟩
  · intro svc z name ty content ttl pr prio rec z' log h
    rw [Zone.create_record] at h
    cases hz : Zone.getattr z "id" with
    | error e =>
      rw [hz] at h
      simp only [bind, Except.bind] at h
      exact Except.noConfusion h
    | ok zid =>
      rw [hz] at h
      simp only [bind, Except.bind, pure, Except.pure, Except.ok.injEq,
        Prod.mk.injEq] at h
      rw [← h.2.1]
  · intro svc z r rec z' log hname h
    cases hu : r.updates with
    | nil =>
      rw [hu] at hname
      exact Bool.noConfusion hname
    | cons a l =>
      rw [hu] at hname
      rw [Record.save, hu] at h
      cases hz : Zone.getattr z "id" with
      | error e =>
        rw [hz] at h
        simp only [bind, Except.bind] at h
        exact Except.noConfusion h
      | ok zid =>
        cases hr : Record.getattr r "id" with
        | error e =>
          rw [hz, hr] at h
          simp only [bind, Except.bind] at h
          exact Except.noConfusion h
        | ok rid =>
          rw [hz, hr] at h
          simp only [bind, Except.bind, pure, Except.pure, hname,
            if_true, Except.ok.injEq, Prod.mk.injEq] at h
          rw [← h.2.1]
  · intro z r z' log h
    rw [Record.delete] at h
    cases hz : Zone.getattr z "id" with
    | error e =>
      rw [hz] at h
      simp only [bind, Except.bind] at h
      exact Except.noConfusion h
    | ok zid =>
      cases hr : Record.getattr r "id" with
      | error e =>
        rw [hz, hr] at h
        simp only [bind, Except.bind] at h
        exact Except.noConfusion h
      | ok rid =>
        rw [hz, hr] at h
        simp only [bind, Except.bind, pure, Except.pure, Except.ok.injEq,
          Prod.mk.injEq] at h
        rw [← h.1]
  · intro svc z hcache m z' log h
    rw [Zone.records, hcache] at h
    cases hz : Zone.getattr z "id" with
    | error e =>
      rw [hz] at h
      simp only [bind, Except.bind] at h
      exact Except.noConfusion h
    | ok zid =>
      rw [hz] at h
      simp only [bind, Except.bind] at h
      cases hb : recordsOfListing (svc.dnsRecords zid) with
      | error e =>
        rw [hb] at h
        simp only [bind, Except.bind] at h
        exact Except.noConfusion h
      | ok m0 =>
        rw [hb] at h
        simp only [bind, Except.bind, pure, Except.pure, Except.ok.injEq,
          Prod.mk.injEq] at h
        exact ⟨zid, rfl, h.2.2.symm, h.1 ▸ hb⟩

/-- Claim C2: for a zone whose records cache is not built, the `records`
property drains the paginated listing once, wraps every blob, and returns a
mapping in which each fetched record appears in the list stored under its
own `name`, every list being sorted ascending lexicographically by the pair
`(type, content)`; the result is cached. -/
theorem records_index_materialization (svc : Service) (z : Zone) (zid : Val)
    (hcache : z.recordsCache = none)
    (hid : Zone.getattr z "id" = Except.ok zid)
    (hfields : ∀ blob ∈ svc.dnsRecords zid, (alookup blob "name").isSome ∧
      (alookup blob "type").isSome ∧ (alookup blob "content").isSome) :
    ∃ m, Zone.records svc z = Except.ok
        (m, { z with recordsCache := some m },
         [NetCall.getDnsRecords zid]) ∧
      (∀ blob ∈ svc.dnsRecords zid, ∀ n, alookup blob "name" = some n →
        ∃ lst, alookup m n = some lst ∧ mkRecord blob ∈ lst) ∧
      (∀ p ∈ m, p.2.Pairwise keyOrdered) := by
  rcases recordsOfListing_spec hfields with ⟨m, hbuild, hmem, hsort⟩
  refine ⟨m, ?_, hmem, hsort⟩
  rw [Zone.records, hcache, hid]
  simp only [bind, Except.bind]
  rw [hbuild]
  rfl

/-! ## Concrete fixtures used by the witnesses -/

def wB1 : Dict :=
  [("id", Val.str "r1"), ("name", Val.str "www"), ("type", Val.str "A"),
   ("content", Val.str "2.2.2.2")]

def wB2 : Dict :=
  [("id", Val.str "r2"), ("name", Val.str "www"), ("type", Val.str "A"),
   ("content", Val.str "1.1.1.1")]

def wB3 : Dict :=
  [("id", Val.str "r3"), ("name", Val.str "mail"), ("type", Val.str "MX"),
   ("content", Val.str "mx1")]

def wSvc : Service where
  zonesList := [[("id", Val.str "z1")]]
  settingsList := fun _ =>
    [⟨"ssl", Val.str "off", true⟩, ⟨"plan", Val.str "free", false⟩]
  dnsRecords := fun _ => [wB1, wB2, wB3]
  createResponse := fun _ d => d
  updateResponse := fun _ _ f => f

def wZone : Zone :=
  Zone.mk [("id", Val.str "z1")] none none

def wZoneCached : Zone :=
  Zone.mk [("id", Val.str "z1")] (some []) none

def wPayloadA : Dict :=
  [("name", Val.str "www"), ("type", Val.str "A"),
   ("content", Val.str "1.2.3.4"), ("ttl", Val.nat 300),
   ("proxied", Val.bool false)]

def wIndex : List (Val × List Record) :=
  [(Val.str "www", [mkRecord wB2, mkRecord wB1]),
   (Val.str "mail", [mkRecord wB3])]

def wRecName : Record :=
  Record.mk wB1 [("name", Val.str "www2")]

def wRecSaved : Record :=
  Record.mk [("id", Val.str "r1"), ("name", Val.str "www2"),
    ("type", Val.str "A"), ("content", Val.str "2.2.2.2")] []

def wRStaged : Record :=
  Record.mk wB1 [("id", Val.str "rX")]

def wSettings : ZoneSettings :=
  ZoneSettings.mk
    [("ssl", ⟨"ssl", Val.str "off", true⟩),
     ("plan", ⟨"plan", Val.str "free", false⟩)] []

def wSettingsEdited : ZoneSettings :=
  ZoneSettings.mk
    [("ssl", ⟨"ssl", Val.str "off", true⟩),
     ("plan", ⟨"plan", Val.str "free", false⟩)] [("ssl", Val.str "on")]

def wUser : User :=
  User.mk none (some [wZone])

def wUserCleared : User :=
  User.mk none none

/-! ## Witnesses -/

/-- Witness for claim C1 at concrete inputs: a zone with a built records
index has it cleared by create, rename-save and delete, and a cleared cache
makes the next access fetch the listing and rebuild. -/
theorem records_cache_invalidation_witness :
    wZone.recordsCache = none ∧ wZone.recordsCache = none ∧
    wZone.recordsCache = none ∧
    (∃ zid, Zone.getattr wZone "id" = Except.ok zid ∧
      ([NetCall.getDnsRecords (Val.str "z1")] : List NetCall) =
        [NetCall.getDnsRecords zid] ∧
      recordsOfListing (wSvc.dnsRecords zid) = Except.ok wIndex) :=
  ⟨records_cache_invalidation.1 wSvc wZoneCached (Val.str "www")
      (Val.str "A") (Val.str "1.2.3.4") (Val.nat 300) (Val.bool false)
      (Val.nat 10) (mkRecord wPayloadA) wZone
      [NetCall.createDnsRecord (Val.str "z1") wPayloadA] (by decide),
   records_cache_invalidation.2.1 wSvc wZoneCached wRecName wRecSaved wZone
      [NetCall.updateDnsRecord (Val.str "z1") (Val.str "r1")
        [("name", Val.str "www2")]] (by decide) (by decide),
   records_cache_invalidation.2.2.1 wZoneCached (mkRecord wB1) wZone
      [NetCall.deleteDnsRecord (Val.str "z1") (Val.str "r1")] (by decide),
   records_cache_invalidation.2.2.2 wSvc wZone rfl wIndex
      (Zone.mk [("id", Val.str "z1")] (some wIndex) none)
      [NetCall.getDnsRecords (Val.str "z1")] (by decide)⟩

/-- Witness for claim C2 at a concrete service: three records, two sharing
the name `www`, built into the index with each list sorted by
`(type, content)`. -/
theorem records_index_materialization_witness :
    ∃ m, Zone.records wSvc wZone = Except.ok
        (m, { wZone with recordsCache := some m },
         [NetCall.getDnsRecords (Val.str "z1")]) ∧
      (∀ blob ∈ wSvc.dnsRecords (Val.str "z1"), ∀ n,
        alookup blob "name" = some n →
        ∃ lst, alookup m n = some lst ∧ mkRecord blob ∈ lst) ∧
      (∀ p ∈ m, p.2.Pairwise keyOrdered) :=
  records_index_materialization wSvc wZone (Val.str "z1") rfl rfl (by decide)

/-- Witness for claim C3 at concrete inputs: an MX create carries
`priority`, a non-MX create does not, and the posted payload is exactly the
built field map. -/
theorem create_record_priority_payload_witness :
    amem (Zone.create_record_payload (Val.str "mail") (Val.str "MX")
      (Val.str "mx1") (Val.nat 1) (Val.bool false) (Val.nat 10))
      "priority" = true ∧
    amem (Zone.create_record_payload (Val.str "www") (Val.str "A")
      (Val.str "1.2.3.4") (Val.nat 300) (Val.bool false) (Val.nat 10))
      "priority" = false ∧
    Zone.create_record wSvc wZone (Val.str "www") (Val.str "A")
      (Val.str "1.2.3.4") (Val.nat 300) (Val.bool false) (Val.nat 10) =
      Except.ok (mkRecord wPayloadA, { wZone with recordsCache := none },
        [NetCall.createDnsRecord (Val.str "z1") wPayloadA]) := by
  refine ⟨(create_record_priority_payload (Val.str "mail") (Val.str "MX")
      (Val.str "mx1") (Val.nat 1) (Val.bool false) (Val.nat 10)).1.mpr rfl,
    ?_,
    (create_record_priority_payload (Val.str "www") (Val.str "A")
      (Val.str "1.2.3.4") (Val.nat 300) (Val.bool false)
      (Val.nat 10)).2.2.2.2.2.2 wSvc wZone (Val.str "z1") rfl⟩
  cases h0 : amem (Zone.create_record_payload (Val.str "www") (Val.str "A")
      (Val.str "1.2.3.4") (Val.nat 300) (Val.bool false) (Val.nat 10))
      "priority" with
  | false => rfl
  | true =>
    exact absurd ((create_record_priority_payload (Val.str "www")
      (Val.str "A") (Val.str "1.2.3.4") (Val.nat 300) (Val.bool false)
      (Val.nat 10)).1.mp h0) (by decide)

/-- Witness for the amended claim C4 at a concrete snapshot: writing the
non-editable setting `plan` raises the NotEditableError (`ValueError`). -/
theorem settings_write_not_editable_witness :
    ("plan" ∉ zoneSettingsInternalAttrs) ∧
    alookup wSettings.settings "plan" = some ⟨"plan", Val.str "free", false⟩ ∧
    ZoneSettings.setattr wSettings "plan" (Val.str "pro") =
      SetResult.err Err.valueError :=
  ⟨by decide, rfl,
   settings_write_not_editable wSettings "plan" (Val.str "pro")
     ⟨"plan", Val.str "free", false⟩ (by decide) rfl rfl⟩

/-- Witness for the amended claim C5 at a concrete snapshot: writing an
unknown field raises, writing a known field stages the edit. -/
theorem record_write_staging_witness :
    Record.setattr (mkRecord wB1) "nope" (Val.str "x") =
      SetResult.err Err.attributeError ∧
    Record.setattr (mkRecord wB1) "content" (Val.str "9.9.9.9") =
      SetResult.ok (Record.mk wB1 [("content", Val.str "9.9.9.9")]) :=
  ⟨(record_write_staging (mkRecord wB1) "nope" (Val.str "x")
      (by decide)).1 (by decide),
   (record_write_staging (mkRecord wB1) "content" (Val.str "9.9.9.9")
      (by decide)).2 (by decide)⟩

/-- Witness for claim C6 at concrete objects: staged edit wins, snapshot is
the fallback, unknown names raise, on both `Record` and `ZoneSettings`. -/
theorem attribute_read_resolution_witness :
    Record.getattr wRecName "name" = Except.ok (Val.str "www2") ∧
    Record.getattr (mkRecord wB1) "type" = Except.ok (Val.str "A") ∧
    Record.getattr (mkRecord wB1) "nope" =
      Except.error Err.attributeError ∧
    ZoneSettings.getattr wSettingsEdited "ssl" = Except.ok (Val.str "on") ∧
    ZoneSettings.getattr wSettings "ssl" = Except.ok (Val.str "off") ∧
    ZoneSettings.getattr wSettings "nope" =
      Except.error Err.attributeError :=
  ⟨attribute_read_resolution.1 wRecName "name" (Val.str "www2") rfl,
   attribute_read_resolution.2.1 (mkRecord wB1) "type" (Val.str "A") rfl rfl,
   attribute_read_resolution.2.2.1 (mkRecord wB1) "nope" rfl rfl,
   attribute_read_resolution.2.2.2.1 wSettingsEdited "ssl" (Val.str "on")
     rfl,
   attribute_read_resolution.2.2.2.2.1 wSettings "ssl"
     ⟨"ssl", Val.str "off", true⟩ rfl rfl,
   attribute_read_resolution.2.2.2.2.2 wSettings "nope" rfl rfl⟩

/-- Witness for claim C7 at a concrete settings object with no pending
edits: save returns the object unchanged and issues no network call. -/
theorem settings_save_noop_witness :
    ZoneSettings.save wSvc (Val.str "z1") wSettings = (wSettings, []) :=
  settings_save_noop wSvc (Val.str "z1") wSettings rfl

/-- Witness for claim C8 at a concrete record: after a save of a `name`
edit, the merged snapshot keeps `id` (absent from the response) and takes
`name` from the response. -/
theorem record_save_merge_witness :
    alookup (dictUpdate wRecName.data (wSvc.updateResponse (Val.str "z1")
      (Val.str "r1") wRecName.updates)) "id" = alookup wRecName.data "id" ∧
    alookup (dictUpdate wRecName.data (wSvc.updateResponse (Val.str "z1")
      (Val.str "r1") wRecName.updates)) "name" =
      some (Val.str "www2") :=
  ⟨(record_save_merge wSvc wZoneCached wRecName (Val.str "z1") (Val.str "r1")
      (by decide) rfl rfl).2.1 "id" (by decide),
   (record_save_merge wSvc wZoneCached wRecName (Val.str "z1") (Val.str "r1")
      (by decide) rfl rfl).2.2 (by decide) "name" (Val.str "www2") rfl⟩

/-- Witness for claim C9 at a concrete user owning one zone: delete clears
the cached zone list and the next `zones` access fetches afresh. -/
theorem zone_delete_invalidates_zones_witness :
    Zone.delete wZone wUser = Except.ok
      (wZone, wUserCleared, [NetCall.deleteZone (Val.str "z1")]) ∧
    User.zones wSvc wUserCleared =
      (User.iter_zones wSvc,
       User.mk none (some (User.iter_zones wSvc)), [NetCall.getZones]) :=
  ⟨(zone_delete_invalidates_zones wZone wUser (Val.str "z1") rfl).1,
   (zone_delete_invalidates_zones wZone wUser (Val.str "z1") rfl).2
     wSvc wUserCleared rfl⟩

/-- Witness for claim C10 at a concrete record: staging `id := rX` makes
`delete` call the endpoint with `rX` instead of the snapshot's `r1`. -/
theorem staged_id_edit_redirects_witness :
    Record.setattr (mkRecord wB1) "id" (Val.str "rX") =
      SetResult.ok wRStaged ∧
    Record.getattr wRStaged "id" = Except.ok (Val.str "rX") ∧
    Record.delete wZone wRStaged = Except.ok
      (Zone.mk [("id", Val.str "z1")] none none,
       [NetCall.deleteDnsRecord (Val.str "z1") (Val.str "rX")]) ∧
    NetCall.deleteDnsRecord (Val.str "z1") (Val.str "rX") ≠
      NetCall.deleteDnsRecord (Val.str "z1") (Val.str "r1") :=
  ⟨(staged_id_edit_redirects wSvc wZone (mkRecord wB1) (Val.str "z1")
      (Val.str "r1") (Val.str "rX") rfl rfl (by decide)).1,
   (staged_id_edit_redirects wSvc wZone (mkRecord wB1) (Val.str "z1")
      (Val.str "r1") (Val.str "rX") rfl rfl (by decide)).2.1,
   (staged_id_edit_redirects wSvc wZone (mkRecord wB1) (Val.str "z1")
      (Val.str "r1") (Val.str "rX") rfl rfl (by decide)).2.2.2.1,
   (staged_id_edit_redirects wSvc wZone (mkRecord wB1) (Val.str "z1")
      (Val.str "r1") (Val.str "rX") rfl rfl (by decide)).2.2.2.2⟩

end PyCloudflare
